import Mathlib

/-!
Authorino, the OPA authorization evaluator: a verification development.

Shallow embedding of `pkg/config/authorization/opa.go`.

* Go `string` and `[]byte` values are byte sequences (`GoString`).
* The OPA engine (`ast.ParseModule`, `rego.PrepareForEval`, `PreparedEvalQuery.Eval`),
  `encoding/json` and `net/http` are libraries outside the repository; they enter as
  parameters (`Engine`, `Http`).
* Every call into the engine and every log line is recorded in an event trace, so that
  "the compiler was (not) invoked" and "the tick logged ..." are statements about values.
* The mutex of `OPA` serialises calls; the embedding is the sequential semantics of one call.
-/

namespace Authorino

/-! ## Strings -/

/-- Go strings are immutable byte sequences. -/
abbrev GoString := List UInt8

/-- UTF-8 bytes of a literal, as the Go compiler stores string constants. -/
def bytes (s : String) : GoString := s.toList.flatMap String.utf8EncodeChar

/-! ## Constants of the package -/

def policyUIDHashSeparator : GoString := bytes "|"
def allowQuery : GoString := bytes "allow"
def msg_opaPolicyInvalidResponseError : GoString := bytes "invalid response from policy evaluation"
def msg_OpaPolicyPrecompileError : GoString := bytes "failed to precompile policy"
def msg_opaPolicyDownloadError : GoString := bytes "failed to download policy from external registry"
def msg_opaPolicyRefreshFromRegistryError : GoString :=
  bytes "failed to refresh policy from external registry"
def msg_opaPolicyRefreshFromRegistrySkipped : GoString := bytes "external policy unchanged"
def msg_opaPolicyRefreshFromRegistrySuccess : GoString := bytes "policy updated from external registry"

/-! ## `cleanUpRegoDocument`: the regular expression `(\s)*package.*[;\n]+`

Go's `regexp` has leftmost-first (Perl) semantics: the match starts at the leftmost position
where the backtracking matcher succeeds, and among the matches starting there the one found
first when every greedy operator prefers to consume. The pattern is ASCII apart from `.`, which
matches every rune but the newline; an ASCII byte is never part of a multi-byte rune, so on byte
sequences `.` is "one byte other than 0x0A" and the byte-level matcher below finds the same
match boundaries as the rune-level one, also on input that is not valid UTF-8. -/

/-- Class `\s` of Go's RE2 syntax: `[\t\n\f\r ]`. -/
def isSpace (b : UInt8) : Bool := b = 9 || b = 10 || b = 12 || b = 13 || b = 32

/-- Class `[;\n]`. -/
def isTerm (b : UInt8) : Bool := b = 59 || b = 10

/-- Greedy `[;\n]*`: length of the longest run of terminators at the start of the input. -/
def termRun : GoString → Nat
  | [] => 0
  | b :: t => if isTerm b then termRun t + 1 else 0

/-- Matcher for `.*[;\n]+` anchored at the start of the input: length of the match. The greedy
star first tries to consume one more byte (not a newline) and falls back to ending here, where
`[;\n]+` must consume at least one terminator and takes the longest run. -/
def dotStarTerm : GoString → Option Nat
  | [] => none
  | b :: t =>
    match (if b ≠ 10 then dotStarTerm t else none) with
    | some n => some (n + 1)
    | none => if isTerm b then some (termRun (b :: t)) else none

/-- Matcher for a literal: the rest of the input after the literal, when the input starts
with it. -/
def literal : GoString → GoString → Option GoString
  | [], s => some s
  | _ :: _, [] => none
  | c :: cs, b :: t => if b = c then literal cs t else none

/-- Matcher for `package.*[;\n]+` anchored at the start of the input. -/
def pkgTail (s : GoString) : Option Nat :=
  match literal (bytes "package") s with
  | some rest => (dotStarTerm rest).map (· + 7)
  | none => none

/-- Matcher for the whole pattern `(\s)*package.*[;\n]+` anchored at the start of the input:
the greedy `(\s)*` first tries to consume one more space and falls back to ending here. -/
def matchAt : GoString → Option Nat
  | [] => pkgTail []
  | b :: t =>
    match (if isSpace b then matchAt t else none) with
    | some n => some (n + 1)
    | none => pkgTail (b :: t)

/-- Loop of `Regexp.ReplaceAllString(src, "")`: `replaceAux k s` is the output for the input `s`
of which the first `k` bytes still belong to the match found last. Outside a match the
search tries each position from left to right; the text of a match is dropped and the search
resumes at its end (a match of this pattern is never empty). -/
def replaceAux : Nat → GoString → GoString
  | _, [] => []
  | k + 1, _ :: t => replaceAux k t
  | 0, b :: t =>
    match matchAt (b :: t) with
    | some n => replaceAux (n - 1) t
    | none => b :: replaceAux 0 t

/-- Source: `cleanUpRegoDocument`: `regexp.Compile("(\\s)*package.*[;\\n]+")` then
`ReplaceAllString(rego, "")`. -/
def cleanUpRegoDocument (rego : GoString) : GoString := replaceAux 0 rego

/-- Some position of the input starts a match of the pattern. -/
def hasMatch : GoString → Bool
  | [] => false
  | b :: t => (matchAt (b :: t)).isSome || hasMatch t

/-! ## `hash`: MD5 (RFC 1321) in lower-case hexadecimal

`crypto/md5` is a library; the digest is written out from RFC 1321 on 32-bit words kept as
natural numbers below `2^32`. -/

/-- Rows `(round, K[i], s[i], g[i])` of the 64 steps: the sine constant, the rotation and the
index of the message word. -/
def md5Table : List (Nat × Nat × Nat × Nat) :=
  [(0, 0xd76aa478, 7, 0), (0, 0xe8c7b756, 12, 1), (0, 0x242070db, 17, 2), (0, 0xc1bdceee, 22, 3),
   (0, 0xf57c0faf, 7, 4), (0, 0x4787c62a, 12, 5), (0, 0xa8304613, 17, 6), (0, 0xfd469501, 22, 7),
   (0, 0x698098d8, 7, 8), (0, 0x8b44f7af, 12, 9), (0, 0xffff5bb1, 17, 10), (0, 0x895cd7be, 22, 11),
   (0, 0x6b901122, 7, 12), (0, 0xfd987193, 12, 13), (0, 0xa679438e, 17, 14), (0, 0x49b40821, 22, 15),
   (1, 0xf61e2562, 5, 1), (1, 0xc040b340, 9, 6), (1, 0x265e5a51, 14, 11), (1, 0xe9b6c7aa, 20, 0),
   (1, 0xd62f105d, 5, 5), (1, 0x02441453, 9, 10), (1, 0xd8a1e681, 14, 15), (1, 0xe7d3fbc8, 20, 4),
   (1, 0x21e1cde6, 5, 9), (1, 0xc33707d6, 9, 14), (1, 0xf4d50d87, 14, 3), (1, 0x455a14ed, 20, 8),
   (1, 0xa9e3e905, 5, 13), (1, 0xfcefa3f8, 9, 2), (1, 0x676f02d9, 14, 7), (1, 0x8d2a4c8a, 20, 12),
   (2, 0xfffa3942, 4, 5), (2, 0x8771f681, 11, 8), (2, 0x6d9d6122, 16, 11), (2, 0xfde5380c, 23, 14),
   (2, 0xa4beea44, 4, 1), (2, 0x4bdecfa9, 11, 4), (2, 0xf6bb4b60, 16, 7), (2, 0xbebfbc70, 23, 10),
   (2, 0x289b7ec6, 4, 13), (2, 0xeaa127fa, 11, 0), (2, 0xd4ef3085, 16, 3), (2, 0x04881d05, 23, 6),
   (2, 0xd9d4d039, 4, 9), (2, 0xe6db99e5, 11, 12), (2, 0x1fa27cf8, 16, 15), (2, 0xc4ac5665, 23, 2),
   (3, 0xf4292244, 6, 0), (3, 0x432aff97, 10, 7), (3, 0xab9423a7, 15, 14), (3, 0xfc93a039, 21, 5),
   (3, 0x655b59c3, 6, 12), (3, 0x8f0ccc92, 10, 3), (3, 0xffeff47d, 15, 10), (3, 0x85845dd1, 21, 1),
   (3, 0x6fa87e4f, 6, 8), (3, 0xfe2ce6e0, 10, 15), (3, 0xa3014314, 15, 6), (3, 0x4e0811a1, 21, 13),
   (3, 0xf7537e82, 6, 4), (3, 0xbd3af235, 10, 11), (3, 0x2ad7d2bb, 15, 2), (3, 0xeb86d391, 21, 9)]

/-- Truncation to 32 bits. -/
def w32 (n : Nat) : Nat := n % 4294967296

/-- Left rotation of a 32-bit word. -/
def rotl32 (x s : Nat) : Nat := w32 (x <<< s) ||| (x >>> (32 - s))

/-- Bitwise complement of a 32-bit word. -/
def not32 (x : Nat) : Nat := 4294967295 - x

/-- Chaining value of MD5. -/
structure Md5State where
  a : Nat
  b : Nat
  c : Nat
  d : Nat
deriving DecidableEq, Repr

/-- Auxiliary functions F, G, H, I of the four rounds. -/
def md5Round (r b c d : Nat) : Nat :=
  match r with
  | 0 => (b &&& c) ||| (not32 b &&& d)
  | 1 => (d &&& b) ||| (not32 d &&& c)
  | 2 => b ^^^ c ^^^ d
  | _ => c ^^^ (b ||| not32 d)

/-- One of the 64 steps on the block `m` of sixteen words. -/
def md5Step (m : List Nat) (st : Md5State) (e : Nat × Nat × Nat × Nat) : Md5State :=
  let f := w32 (md5Round e.1 st.b st.c st.d + st.a + e.2.1 + m.getD e.2.2.2 0)
  { a := st.d, d := st.c, c := st.b, b := w32 (st.b + rotl32 f e.2.2.1) }

/-- Compression of one block into the chaining value. -/
def md5Block (st : Md5State) (m : List Nat) : Md5State :=
  let r := md5Table.foldl (md5Step m) st
  { a := w32 (st.a + r.a), b := w32 (st.b + r.b), c := w32 (st.c + r.c), d := w32 (st.d + r.d) }

/-- Little-endian bytes of a number, `k` of them. -/
def leBytes : Nat → Nat → List Nat
  | 0, _ => []
  | k + 1, n => n % 256 :: leBytes k (n / 256)

/-- Padding: a one bit, zeros up to 56 modulo 64, then the length in bits on 64 bits. -/
def md5Pad (msg : List Nat) : List Nat :=
  msg ++ 128 :: List.replicate ((119 - msg.length % 64) % 64) 0
    ++ leBytes 8 (8 * msg.length % 18446744073709551616)

/-- Little-endian 32-bit words of a byte sequence. -/
def leWords : List Nat → List Nat
  | b0 :: b1 :: b2 :: b3 :: t => (b0 + 256 * b1 + 65536 * b2 + 16777216 * b3) :: leWords t
  | _ => []

/-- Blocks of sixteen words (the first argument bounds the number of blocks). -/
def md5Blocks : Nat → List Nat → List (List Nat)
  | 0, _ => []
  | k + 1, ws => if ws.isEmpty then [] else ws.take 16 :: md5Blocks k (ws.drop 16)

def md5Init : Md5State := ⟨0x67452301, 0xefcdab89, 0x98badcfe, 0x10325476⟩

/-- Library `md5.Sum`: the sixteen bytes of the digest. -/
def md5Sum (data : GoString) : List Nat :=
  let ws := leWords (md5Pad (data.map UInt8.toNat))
  let st := (md5Blocks ws.length ws).foldl md5Block md5Init
  leBytes 4 st.a ++ leBytes 4 st.b ++ leBytes 4 st.c ++ leBytes 4 st.d

/-- Lower-case hexadecimal digit. -/
def hexDigit (n : Nat) : UInt8 := if n < 10 then UInt8.ofNat (48 + n) else UInt8.ofNat (87 + n)

/-- Source: `hash`: `fmt.Sprintf("%x", md5.Sum([]byte(s)))`. -/
def hash (s : GoString) : GoString :=
  (md5Sum s).flatMap (fun b => [hexDigit (b / 16), hexDigit (b % 16)])

/-! ## `generatePolicyUID` -/

/-- Decimal digit. -/
def digitChar (d : Nat) : UInt8 := UInt8.ofNat (48 + d)

/-- Decimal digits of a natural number, most significant first (the first argument bounds
the number of digits). -/
def formatNat : Nat → Nat → GoString
  | 0, _ => []
  | f + 1, n => if n < 10 then [digitChar n] else formatNat f (n / 10) ++ [digitChar (n % 10)]

/-- Library `fmt.Sprint` on an `int`: decimal digits, with a leading minus sign for a negative
number. A Go `int` is a 64-bit integer; the nonce ranges over all of `Int` here. -/
def Sprint (nonce : Int) : GoString :=
  if nonce < 0 then 45 :: formatNat (nonce.natAbs + 1) nonce.natAbs
  else formatNat (nonce.natAbs + 1) nonce.natAbs

/-- The string that `generatePolicyUID` hashes:
`fmt.Sprint(nonce) + policyUIDHashSeparator + policyName + policyUIDHashSeparator + policyContent`. -/
def policyUIDInput (policyName policyContent : GoString) (nonce : Int) : GoString :=
  Sprint nonce ++ policyUIDHashSeparator ++ policyName ++ policyUIDHashSeparator ++ policyContent

/-- Source: `generatePolicyUID`. -/
def generatePolicyUID (policyName policyContent : GoString) (nonce : Int) : GoString :=
  hash (policyUIDInput policyName policyContent nonce)

/-! ## Libraries, events and the data model -/

/-- Go `error` values, by their message. -/
abbrev GoError := GoString

/-- Outcome of a Go call: it returns or the goroutine panics. -/
inductive Outcome (α : Type) where
  | ret (a : α)
  | panic (reason : GoString)

/-- Go `interface{}` values as `encoding/json` and the engine produce them. -/
inductive GoValue where
  | nil
  | bool (b : Bool)
  | number (n : GoString)
  | string (s : GoString)
  | array (xs : List GoValue)
  | object (kvs : List (GoString × GoValue))

/-- Library `rego.Result`, of which `Call` reads the field `Bindings` (a `map[string]interface{}`;
a key that is absent reads as `none`). -/
structure Result where
  Bindings : GoString → Option GoValue

/-- The OPA library: `ast.ParseModule(filename, content)`, the rule-head names
`string(rule.Head.Name)` of `module.Rules` in module order, `rego.New(rego.Query(q),
rego.ParsedModule(m)).PrepareForEval`, and `PreparedEvalQuery.Eval` on an input document. -/
structure Engine (Module Query : Type) where
  ParseModule : GoString → GoString → Except GoError Module
  ruleNames : Module → List GoString
  PrepareForEval : GoString → Module → Except GoError Query
  Eval : Query → GoValue → Except GoError (List Result)

/-- Severity of a log line: `logger.Error`, `logger.Info`, `logger.V(1).Info`. -/
inductive Level where
  | error
  | info
  | debug
deriving DecidableEq, Repr

/-- Observable effects of a call, in order. -/
inductive Event where
  | parseModule (filename content : GoString)
  | prepareForEval (query : GoString)
  | log (level : Level) (msg : GoString)
deriving DecidableEq, Repr

/-- Source: `type OPA struct`: the policy cell. `policy` is a pointer, nil until the first
successful compile. -/
structure OPA (Query : Type) where
  Rego : GoString
  AllValues : Bool
  policy : Option Query
  policyName : GoString
  policyUID : GoString

/-! ## `precompilePolicy` -/

/-- The synthesized package name: ``fmt.Sprintf(`authorino.authz["%s"]`, opa.policyUID)``. -/
def synthPolicyName (policyUID : GoString) : GoString :=
  bytes "authorino.authz[\"" ++ policyUID ++ bytes "\"]"

/-- The wrapped module text: `fmt.Sprintf(policyTemplate, policyName, opa.Rego)`. -/
def policyContent (policyName rego : GoString) : GoString :=
  bytes "package " ++ policyName ++ bytes "\ndefault allow = false\n" ++ rego

/-- One binding: `fmt.Sprintf(queryTemplate, name, name)` with
``queryTemplate := `%s = object.get(data.` + policyName + `, "%s", null)` ``. The policy UID
inside `policyName` is a hexadecimal digest (`NewOPAAuthorization` sets it from
`generatePolicyUID`), so the template has no verb besides the two `%s`. -/
def queryFor (policyName name : GoString) : GoString :=
  name ++ bytes " = object.get(data." ++ policyName ++ bytes ", \"" ++ name ++ bytes "\", null)"

/-- Body of the loop over `module.Rules`: the state is the slice `queries` and the key set of
the map `rules`. -/
def collectRule (policyName : GoString) (acc : List GoString × List GoString) (name : GoString) :
    List GoString × List GoString :=
  if name ∈ acc.2 then acc else (acc.1 ++ [queryFor policyName name], name :: acc.2)

/-- The slice `queries` when the engine is called. -/
def buildQueries (policyName : GoString) (allValues : Bool) (names : List GoString) :
    List GoString :=
  if allValues then
    (names.foldl (collectRule policyName) ([queryFor policyName allowQuery], [allowQuery])).1
  else [queryFor policyName allowQuery]

/-- Library `strings.Join`. -/
def stringsJoin (elems : List GoString) (sep : GoString) : GoString := sep.intercalate elems

/-- What one call of `precompilePolicy` returns and leaves behind. -/
structure PrecompileResult (Query : Type) where
  err : Option GoError
  opa : OPA Query
  events : List Event

/-- Source: `OPA.precompilePolicy`. -/
def precompilePolicy {Module Query : Type} (eng : Engine Module Query) (opa : OPA Query) :
    PrecompileResult Query :=
  let policyName := synthPolicyName opa.policyUID
  let content := policyContent policyName opa.Rego
  let policyFileName := opa.policyUID ++ bytes ".rego"
  match eng.ParseModule policyFileName content with
  | .error err => ⟨some err, opa, [.parseModule policyFileName content]⟩
  | .ok module =>
    let query := stringsJoin (buildQueries policyName opa.AllValues (eng.ruleNames module)) (bytes ";")
    match eng.PrepareForEval query module with
    | .error err => ⟨some err, opa, [.parseModule policyFileName content, .prepareForEval query]⟩
    | .ok regoPolicy =>
      ⟨none, { opa with policy := some regoPolicy },
        [.parseModule policyFileName content, .prepareForEval query]⟩

/-! ## `updateRego` -/

/-- What one call of `updateRego` returns and leaves behind. -/
structure UpdateResult (Query : Type) where
  changed : Bool
  err : Option GoError
  opa : OPA Query
  events : List Event

/-- Source: `OPA.updateRego`. -/
def updateRego {Module Query : Type} (eng : Engine Module Query) (opa : OPA Query)
    (rego : GoString) (force : Bool) : UpdateResult Query :=
  let newRego := cleanUpRegoDocument rego
  let currentRego := opa.Rego
  if !force && hash newRego == hash currentRego then
    ⟨false, none, opa, []⟩
  else
    let r := precompilePolicy eng { opa with Rego := newRego }
    match r.err with
    | some err =>
      ⟨false, some err, { r.opa with Rego := currentRego },
        r.events ++ [.log .error msg_OpaPolicyPrecompileError]⟩
    | none => ⟨true, none, r.opa, r.events⟩

/-! ## `Call` -/

/-- First value returned by `Call`: `nil`, the boolean `false`, or the bindings. -/
inductive CallValue where
  | nil
  | boolFalse
  | bindings (b : GoString → Option GoValue)

/-- Type assertion `v.(bool)` on a map read: the value and the `ok` flag. -/
def assertBool : Option GoValue → Bool × Bool
  | some (.bool b) => (b, true)
  | _ => (false, false)

/-- Source: `OPA.Call`. `unmarshal` is `json.Unmarshal` into an `interface{}`;
`unauthorizedError` is the message of `fmt.Errorf(unauthorizedErrorMsg)`, a constant of the
package declared in another file. Dereferencing a nil `policy` panics. -/
def Call {Module Query : Type} (eng : Engine Module Query)
    (unmarshal : GoString → Except GoError GoValue) (unauthorizedError : GoError)
    (opa : OPA Query) (authorizationJSON : GoString) : Outcome (CallValue × Option GoError) :=
  match unmarshal authorizationJSON with
  | .error err => .ret (.boolFalse, some err)
  | .ok authJSON =>
    match opa.policy with
    | none => .panic (bytes "invalid memory address or nil pointer dereference")
    | some policy =>
      match eng.Eval policy authJSON with
      | .error err => .ret (.nil, some err)
      | .ok [] => .ret (.nil, some msg_opaPolicyInvalidResponseError)
      | .ok (r :: _) =>
        let (allowed, ok) := assertBool (r.Bindings allowQuery)
        if !ok || !allowed then .ret (.nil, some unauthorizedError)
        else .ret (.bindings r.Bindings, none)

/-! ## The registry fetcher and the refresh tick -/

/-- Source: `type responseOpaJson struct` with its `resultJson`. -/
structure responseOpaJson where
  Raw : GoString

/-- Library `http.Response`, with the body as `ioutil.ReadAll` returns it. `Header` is a
`map[string][]string`: an absent key reads as the nil slice. -/
structure Response where
  StatusCode : Nat
  Status : GoString
  Header : GoString → List GoString
  Body : Except GoError GoString

/-- The network side: `BuildRequestWithCredentials(ctx, endpoint, "GET", sharedSecret, nil)`,
`http.DefaultClient.Do` and `json.Unmarshal` into a `responseOpaJson`. -/
structure Http (Request : Type) where
  BuildRequestWithCredentials : GoString → GoString → Except GoError Request
  Do : Request → Except GoError Response
  Unmarshal : GoString → Except GoError responseOpaJson

/-- Source: `type OPAExternalSource struct` (the fields the fetcher reads). -/
structure OPAExternalSource where
  Endpoint : GoString
  SharedSecret : GoString
  TTL : Int

/-- Source: `OPAExternalSource.downloadRegoDataFromUrl`. Indexing the empty slice at
`resp.Header["Content-Type"][0]` panics. -/
def downloadRegoDataFromUrl {Request : Type} (http : Http Request) (ext : OPAExternalSource) :
    Outcome (GoString × Option GoError) :=
  match http.BuildRequestWithCredentials ext.Endpoint ext.SharedSecret with
  | .error err => .ret ([], some err)
  | .ok req =>
    match http.Do req with
    | .error err => .ret ([], some (bytes "failed to fetch Rego config: " ++ err))
    | .ok resp =>
      match resp.Body with
      | .error err => .ret ([], some (bytes "unable to read response body: " ++ err))
      | .ok body =>
        if resp.StatusCode ≠ 200 then .ret ([], some (resp.Status ++ bytes ": " ++ body))
        else
          match resp.Header (bytes "Content-Type") with
          | [] => .panic (bytes "index out of range [0] with length 0")
          | contentType :: _ =>
            if contentType = bytes "application/json" then
              match http.Unmarshal body with
              | .error err => .ret ([], some (bytes "unable to unmarshal json response: " ++ err))
              | .ok jsonResponse => .ret (jsonResponse.Raw, none)
            else .ret (body, none)

/-- Source: the worker function that `OPAExternalSource.setupRefresher` hands to
`cron.StartWorker`: one refresh tick. -/
def refreshTick {Module Query Request : Type} (eng : Engine Module Query) (http : Http Request)
    (ext : OPAExternalSource) (opa : OPA Query) : Outcome (OPA Query × List Event) :=
  match downloadRegoDataFromUrl http ext with
  | .panic reason => .panic reason
  | .ret (_, some _) => .ret (opa, [.log .error msg_opaPolicyDownloadError])
  | .ret (downloadedRego, none) =>
    let r := updateRego eng opa downloadedRego false
    if r.changed then .ret (r.opa, r.events ++ [.log .info msg_opaPolicyRefreshFromRegistrySuccess])
    else
      match r.err with
      | some _ => .ret (r.opa, r.events ++ [.log .error msg_opaPolicyRefreshFromRegistryError])
      | none => .ret (r.opa, r.events ++ [.log .debug msg_opaPolicyRefreshFromRegistrySkipped])

/-! ## Concrete instances -/

/-- A small engine for concrete instances: a module is its text, parsing rejects a text that
ends in `=`, every module has the rule heads `allow, a, allow, b, a`, a prepared query is the
pair of the query string and the module, and every evaluation allows. -/
def stubEngine : Engine GoString (GoString × GoString) where
  ParseModule := fun _ content =>
    if content.getLast? = some 61 then .error (bytes "rego_parse_error") else .ok content
  ruleNames := fun _ => [bytes "allow", bytes "a", bytes "allow", bytes "b", bytes "a"]
  PrepareForEval := fun query module => .ok (query, module)
  Eval := fun _ _ => .ok [⟨fun k => if k = allowQuery then some (.bool true) else none⟩]

/-- A cell holding the body `allow = true`, compiled by `stubEngine`. -/
def stubCell : OPA (GoString × GoString) where
  Rego := bytes "allow = true"
  AllValues := false
  policy := some (bytes "allow = object.get(data.authorino.authz[\"00\"], \"allow\", null)",
    bytes "package authorino.authz[\"00\"]\ndefault allow = false\nallow = true")
  policyName := bytes "demo"
  policyUID := bytes "00"

/-! ## Predicates of the statements -/

/-- The event is a call into the policy compiler. -/
def isCompilerEvent : Event → Bool
  | .parseModule _ _ => true
  | .prepareForEval _ => true
  | .log _ _ => false

/-- Some event of the trace is a call into the policy compiler. -/
def invokesCompiler (events : List Event) : Bool := events.any isCompilerEvent

/-- Spec-side, compiler step 3: the rule heads that get a binding after `allow`, given the
heads `seen` so far: each distinct head once, the first occurrence wins. -/
def specRuleHeads : List GoString → List GoString → List GoString
  | _, [] => []
  | seen, r :: rest =>
    if r ∈ seen then specRuleHeads seen rest else r :: specRuleHeads (r :: seen) rest

/-- Spec-side, compiler step 3: the decision query set. It always includes the `allow`
binding; if all-values is set, one binding follows for each distinct rule head. -/
def specQuerySet (synth : GoString) (allValues : Bool) (heads : List GoString) : List GoString :=
  queryFor synth allowQuery ::
    (if allValues then (specRuleHeads [allowQuery] heads).map (queryFor synth) else [])

/-- Spec-side, operation `compile(fingerprint, body, all-values)`: what the engine itself
yields for a body. The body is wrapped under the synthesized package name and parsed by
`eng.ParseModule`; the parsed module and the `;`-joined decision query set go to
`eng.PrepareForEval`, whose prepared query (or error) is the result. No cell is involved. -/
def specCompile {Module Query : Type} (eng : Engine Module Query) (fingerprint : GoString)
    (allValues : Bool) (body : GoString) : Except GoError Query :=
  match eng.ParseModule (fingerprint ++ bytes ".rego")
      (policyContent (synthPolicyName fingerprint) body) with
  | .error err => .error err
  | .ok module =>
    eng.PrepareForEval
      (stringsJoin (specQuerySet (synthPolicyName fingerprint) allValues (eng.ruleNames module))
        (bytes ";")) module

/-- Body/query consistency of a cell: the engine compiles the stored body (with the policy UID
and the all-values flag of the cell) to a prepared query, and that query is the one the cell
stores. A cell whose `policy` is nil is not consistent. -/
def Consistent {Module Query : Type} (eng : Engine Module Query) (opa : OPA Query) : Prop :=
  ∃ q, specCompile eng opa.policyUID opa.AllValues opa.Rego = .ok q ∧ opa.policy = some q

/-- The cell that `NewOPAAuthorization` builds before its first, forced `updateRego`: no body
and a nil `policy`. -/
def freshCell : OPA (GoString × GoString) where
  Rego := []
  AllValues := true
  policy := none
  policyName := bytes "demo"
  policyUID := bytes "00"

/-- Two texts of 72 letters and digits that differ in one byte and have the same MD5 digest
`faad49866e9498fc1719f5289e7a0269`. -/
def collisionA : GoString :=
  bytes "TEXTCOLLBYfGiJUETHQ4hAcKSMd5zYpgqf1YRDhkmxHkhPWptrkoyz28wnI9V0aHeAuaKnak"

def collisionB : GoString :=
  bytes "TEXTCOLLBYfGiJUETHQ4hEcKSMd5zYpgqf1YRDhkmxHkhPWptrkoyz28wnI9V0aHeAuaKnak"

/-- A cell whose stored body is `collisionA`. -/
def collisionCell : OPA (GoString × GoString) where
  Rego := collisionA
  AllValues := false
  policy := some (bytes "q", bytes "m")
  policyName := bytes "demo"
  policyUID := bytes "00"

/-- The log line is one of the outcome messages of a refresh tick. -/
def isOutcomeLog (e : Event) : Bool :=
  e = .log .error msg_opaPolicyDownloadError ||
  e = .log .error msg_opaPolicyRefreshFromRegistryError ||
  e = .log .debug msg_opaPolicyRefreshFromRegistrySkipped ||
  e = .log .info msg_opaPolicyRefreshFromRegistrySuccess

/-- The outcome message of a tick whose fetch returned and whose install returned `r`. -/
def outcomeLog {Query : Type} (fetchErr : Option GoError) (r : UpdateResult Query) : Event :=
  match fetchErr with
  | some _ => .log .error msg_opaPolicyDownloadError
  | none =>
    if r.changed then .log .info msg_opaPolicyRefreshFromRegistrySuccess
    else if r.err.isSome then .log .error msg_opaPolicyRefreshFromRegistryError
    else .log .debug msg_opaPolicyRefreshFromRegistrySkipped

/-- A cell like `stubCell` that surfaces all values. -/
def stubCellAllValues : OPA (GoString × GoString) := { stubCell with AllValues := true }

/-- A registry that cannot be reached. -/
def httpDown : Http Unit where
  BuildRequestWithCredentials := fun _ _ => .ok ()
  Do := fun _ => .error (bytes "connection refused")
  Unmarshal := fun _ => .error (bytes "unexpected end of JSON input")

/-- A registry that answers `200 OK` with the body `allow = true` and no header. -/
def httpNoContentType : Http Unit where
  BuildRequestWithCredentials := fun _ _ => .ok ()
  Do := fun _ => .ok
    { StatusCode := 200, Status := bytes "200 OK", Header := fun _ => [],
      Body := .ok (bytes "allow = true") }
  Unmarshal := fun _ => .error (bytes "invalid character")

/-- A registry that answers `200 OK` with the body `allow = false` as `text/plain`. -/
def httpPlain : Http Unit where
  BuildRequestWithCredentials := fun _ _ => .ok ()
  Do := fun _ => .ok
    { StatusCode := 200, Status := bytes "200 OK",
      Header := fun k => if k = bytes "Content-Type" then [bytes "text/plain"] else [],
      Body := .ok (bytes "allow = false") }
  Unmarshal := fun _ => .error (bytes "invalid character")

/-- An external source for the concrete instances. -/
def stubSource : OPAExternalSource where
  Endpoint := bytes "http://registry/policy"
  SharedSecret := bytes "secret"
  TTL := 1

/-- The text contains the word `package` followed, anywhere later, by `;` or a newline. -/
def PackageThenTerminator (s : GoString) : Prop :=
  ∃ u v c w, s = u ++ bytes "package" ++ v ++ c :: w ∧ isTerm c = true

/-- Value of a decimal numeral: the digits are read back from the left. -/
def decodeNat (s : GoString) : Nat := s.foldl (fun acc b => 10 * acc + (b.toNat - 48)) 0

/-- The text is a word of the pattern `(\s)*package.*[;\n]+`: spaces, the word `package`,
bytes other than the newline, and at least one terminator. -/
def InPattern (m : GoString) : Prop :=
  ∃ ws body terms, m = ws ++ bytes "package" ++ body ++ terms ∧
    (∀ b ∈ ws, isSpace b = true) ∧ (10 : UInt8) ∉ body ∧ terms ≠ [] ∧
    ∀ b ∈ terms, isTerm b = true

/-! ## The policy cell: `precompilePolicy` and `updateRego` -/

theorem precompilePolicy_err_state {Module Query : Type} (eng : Engine Module Query)
    (o : OPA Query) (e : GoError) (h : (precompilePolicy eng o).err = some e) :
    (precompilePolicy eng o).opa = o := by
  unfold precompilePolicy at h ⊢
  cases hp : eng.ParseModule (o.policyUID ++ bytes ".rego")
      (policyContent (synthPolicyName o.policyUID) o.Rego) with
  | error err => simp [hp]
  | ok module =>
    simp only [hp] at h ⊢
    split at h
    · rename_i err hq
      simp [hq]
    · simp at h

theorem precompilePolicy_ok_state {Module Query : Type} (eng : Engine Module Query)
    (o : OPA Query) (h : (precompilePolicy eng o).err = none) :
    ∃ q, (precompilePolicy eng o).opa = { o with policy := some q } := by
  unfold precompilePolicy at h ⊢
  cases hp : eng.ParseModule (o.policyUID ++ bytes ".rego")
      (policyContent (synthPolicyName o.policyUID) o.Rego) with
  | error err => simp [hp] at h
  | ok module =>
    simp only [hp] at h ⊢
    split at h
    · simp at h
    · rename_i q hq
      exact ⟨q, by simp [hq]⟩

theorem precompilePolicy_events_ne_nil {Module Query : Type} (eng : Engine Module Query)
    (o : OPA Query) :
    ∃ rest, (precompilePolicy eng o).events
      = .parseModule (o.policyUID ++ bytes ".rego")
          (policyContent (synthPolicyName o.policyUID) o.Rego) :: rest := by
  unfold precompilePolicy
  cases hp : eng.ParseModule (o.policyUID ++ bytes ".rego")
      (policyContent (synthPolicyName o.policyUID) o.Rego) with
  | error err => exact ⟨[], by simp [hp]⟩
  | ok module =>
    simp only [hp]
    split
    · exact ⟨_, rfl⟩
    · exact ⟨_, rfl⟩

/-- The skipped branch of `updateRego`. -/
theorem updateRego_skip {Module Query : Type} (eng : Engine Module Query) (opa : OPA Query)
    (rego : GoString) (force : Bool)
    (h : force = false ∧ hash (cleanUpRegoDocument rego) = hash opa.Rego) :
    updateRego eng opa rego force = ⟨false, none, opa, []⟩ := by
  unfold updateRego
  simp [h.1, h.2]

/-- The compiling branch of `updateRego`. -/
theorem updateRego_compile {Module Query : Type} (eng : Engine Module Query) (opa : OPA Query)
    (rego : GoString) (force : Bool)
    (h : ¬ (force = false ∧ hash (cleanUpRegoDocument rego) = hash opa.Rego)) :
    updateRego eng opa rego force =
      match (precompilePolicy eng { opa with Rego := cleanUpRegoDocument rego }).err with
      | some err => ⟨false, some err,
          { (precompilePolicy eng { opa with Rego := cleanUpRegoDocument rego }).opa with
            Rego := opa.Rego },
          (precompilePolicy eng { opa with Rego := cleanUpRegoDocument rego }).events
            ++ [.log .error msg_OpaPolicyPrecompileError]⟩
      | none => ⟨true, none,
          (precompilePolicy eng { opa with Rego := cleanUpRegoDocument rego }).opa,
          (precompilePolicy eng { opa with Rego := cleanUpRegoDocument rego }).events⟩ := by
  unfold updateRego
  have : (!force && hash (cleanUpRegoDocument rego) == hash opa.Rego) = false := by
    cases force <;> simp_all
  simp only [this]
  rfl

/-- C1. When `updateRego` returns an error, the cell is what it was before the call (in
particular the stored body `Rego` and the stored prepared query `policy`), and the returned
`changed` flag is false. -/
theorem updateRego_error_rollback {Module Query : Type} (eng : Engine Module Query)
    (opa : OPA Query) (rego : GoString) (force : Bool) (err : GoError)
    (h : (updateRego eng opa rego force).err = some err) :
    (updateRego eng opa rego force).opa.Rego = opa.Rego ∧
    (updateRego eng opa rego force).opa.policy = opa.policy ∧
    (updateRego eng opa rego force).opa = opa ∧
    (updateRego eng opa rego force).changed = false := by
  by_cases hs : force = false ∧ hash (cleanUpRegoDocument rego) = hash opa.Rego
  · rw [updateRego_skip eng opa rego force hs] at h
    simp at h
  · rw [updateRego_compile eng opa rego force hs] at h ⊢
    cases he : (precompilePolicy eng { opa with Rego := cleanUpRegoDocument rego }).err with
    | none => simp [he] at h
    | some e =>
      have hst := precompilePolicy_err_state eng _ e he
      simp only [he, hst]
      simp

/-- Instance of C1: forcing the body `allow =` into `stubCell` fails to parse and rolls back. -/
theorem updateRego_error_rollback_witness :
    (updateRego stubEngine stubCell (bytes "allow =") true).err = some (bytes "rego_parse_error") ∧
    ((updateRego stubEngine stubCell (bytes "allow =") true).opa.Rego = stubCell.Rego ∧
     (updateRego stubEngine stubCell (bytes "allow =") true).opa.policy = stubCell.policy ∧
     (updateRego stubEngine stubCell (bytes "allow =") true).opa = stubCell ∧
     (updateRego stubEngine stubCell (bytes "allow =") true).changed = false) :=
  ⟨by decide, updateRego_error_rollback stubEngine stubCell (bytes "allow =") true
    (bytes "rego_parse_error") (by decide)⟩

set_option maxRecDepth 1000000 in
/-- The two texts `collisionA` and `collisionB` have the same hash. -/
theorem hash_collision : hash collisionB = hash collisionA := by decide

set_option maxRecDepth 1000000 in
/-- Two test vectors of the digest: the empty text (RFC 1321) and `collisionA`. -/
theorem hash_test_vectors :
    hash [] = bytes "d41d8cd98f00b204e9800998ecf8427e" ∧
    hash collisionA = bytes "faad49866e9498fc1719f5289e7a0269" := by
  decide

theorem cleanUp_collisionB : cleanUpRegoDocument collisionB = collisionB := by decide

/-- C3, as stated, fails: the stored body is `collisionA`, the body passed in is `collisionB`
(no package declaration, so normalization leaves it as it is) and `force` is false. The two
bodies differ in one byte and have the same MD5 digest, so `updateRego` returns `(false, nil)`
without invoking the compiler and without changing the cell. -/
theorem updateRego_skips_on_md5_collision :
    ((updateRego stubEngine collisionCell collisionB false).changed = false ∧
      (updateRego stubEngine collisionCell collisionB false).err = none ∧
      invokesCompiler (updateRego stubEngine collisionCell collisionB false).events = false ∧
      (updateRego stubEngine collisionCell collisionB false).opa.Rego = collisionCell.Rego ∧
      (updateRego stubEngine collisionCell collisionB false).opa.policy = collisionCell.policy) ∧
    ¬ (false = false ∧ cleanUpRegoDocument collisionB = collisionCell.Rego) := by
  have hs := updateRego_skip stubEngine collisionCell collisionB false
    ⟨rfl, by rw [cleanUp_collisionB]; exact hash_collision⟩
  rw [hs]
  refine ⟨⟨rfl, rfl, rfl, rfl, rfl⟩, ?_⟩
  rintro ⟨_, h⟩
  rw [cleanUp_collisionB] at h
  exact absurd h (by decide)

/-- C3, amended. `updateRego` returns `(false, nil)` without invoking the compiler and without
changing `Rego` or `policy` if and only if `force` is false and the MD5 hash of the normalized
body equals the MD5 hash of the stored body; in every other case the parser is invoked first,
on the policy template filled with the normalized body. -/
theorem updateRego_skip_iff_hash_eq {Module Query : Type} (eng : Engine Module Query)
    (opa : OPA Query) (rego : GoString) (force : Bool) :
    (((updateRego eng opa rego force).changed = false ∧
        (updateRego eng opa rego force).err = none ∧
        invokesCompiler (updateRego eng opa rego force).events = false ∧
        (updateRego eng opa rego force).opa.Rego = opa.Rego ∧
        (updateRego eng opa rego force).opa.policy = opa.policy)
      ↔ (force = false ∧ hash (cleanUpRegoDocument rego) = hash opa.Rego)) ∧
    ((force = false ∧ hash (cleanUpRegoDocument rego) = hash opa.Rego) ∨
      ∃ rest, (updateRego eng opa rego force).events
        = .parseModule (opa.policyUID ++ bytes ".rego")
            (policyContent (synthPolicyName opa.policyUID) (cleanUpRegoDocument rego)) :: rest) := by
  by_cases hs : force = false ∧ hash (cleanUpRegoDocument rego) = hash opa.Rego
  · rw [updateRego_skip eng opa rego force hs]
    exact ⟨⟨fun _ => hs, fun _ => ⟨rfl, rfl, rfl, rfl, rfl⟩⟩, Or.inl hs⟩
  · obtain ⟨rest, hev⟩ :=
      precompilePolicy_events_ne_nil eng { opa with Rego := cleanUpRegoDocument rego }
    rw [updateRego_compile eng opa rego force hs]
    cases he : (precompilePolicy eng { opa with Rego := cleanUpRegoDocument rego }).err with
    | none =>
      simp only [he, hev]
      refine ⟨⟨fun h => absurd h.1 (by simp), fun h => absurd h hs⟩, Or.inr ⟨rest, rfl⟩⟩
    | some e =>
      simp only [he, hev]
      refine ⟨⟨fun h => absurd h.2.1 (by simp), fun h => absurd h hs⟩,
        Or.inr ⟨rest ++ [.log .error msg_OpaPolicyPrecompileError], ?_⟩⟩
      simp

/-- The loop over `module.Rules` computes the rule heads of the decision query set. -/
theorem foldl_collectRule_spec (p : GoString) (l : List GoString) :
    ∀ (qs seen : List GoString),
      l.foldl (collectRule p) (qs, seen)
        = (qs ++ (specRuleHeads seen l).map (queryFor p), (specRuleHeads seen l).reverse ++ seen) := by
  induction l with
  | nil => intro qs seen; simp [specRuleHeads]
  | cons x t ih =>
    intro qs seen
    by_cases hx : x ∈ seen
    · simp only [List.foldl_cons, collectRule, specRuleHeads, hx, if_true]
      exact ih qs seen
    · simp only [List.foldl_cons, collectRule, specRuleHeads, hx, if_false]
      rw [ih]
      simp

theorem buildQueries_eq_spec (p : GoString) (allValues : Bool) (names : List GoString) :
    buildQueries p allValues names = specQuerySet p allValues names := by
  cases allValues with
  | false => simp [buildQueries, specQuerySet]
  | true => simp [buildQueries, specQuerySet, foldl_collectRule_spec]

/-- What `precompilePolicy` does to a cell, in terms of what the engine yields for its body:
on success the prepared query is stored, on failure the cell is left as it is. -/
theorem precompilePolicy_spec {Module Query : Type} (eng : Engine Module Query) (o : OPA Query) :
    (∀ q, specCompile eng o.policyUID o.AllValues o.Rego = .ok q →
      (precompilePolicy eng o).err = none ∧
      (precompilePolicy eng o).opa = { o with policy := some q }) ∧
    (∀ e, specCompile eng o.policyUID o.AllValues o.Rego = .error e →
      (precompilePolicy eng o).err = some e ∧ (precompilePolicy eng o).opa = o) := by
  unfold specCompile precompilePolicy
  cases hp : eng.ParseModule (o.policyUID ++ bytes ".rego")
      (policyContent (synthPolicyName o.policyUID) o.Rego) with
  | error err =>
    simp only [hp]
    refine ⟨fun q hq => ?_, fun e he => ?_⟩
    · simp at hq
    · simp only [Except.error.injEq] at he
      simp [he]
  | ok module =>
    simp only [hp, buildQueries_eq_spec]
    refine ⟨fun q hq => ?_, fun e he => ?_⟩
    · simp [hq]
    · simp [he]

/-- C4. Body/query consistency, measured against the engine: a cell is consistent when its
stored prepared query is what `eng.ParseModule` and `eng.PrepareForEval` yield for its stored
body with its policy UID and all-values flag. (a) From a consistent cell every call of
`updateRego`, whatever the body, the force flag and the outcome (updated, skipped or failed),
ends in a consistent cell. (b) From any cell, consistent or not (also the cell with a nil
`policy` of the first forced install), when `updateRego` returns `(true, nil)` the stored body
is the normalized body passed in, the policy UID and the all-values flag are unchanged, the
stored query is the one the engine compiles from exactly that body, and the cell is
consistent. -/
theorem updateRego_consistent {Module Query : Type} (eng : Engine Module Query)
    (opa : OPA Query) (rego : GoString) (force : Bool) :
    (Consistent eng opa → Consistent eng (updateRego eng opa rego force).opa) ∧
    ((updateRego eng opa rego force).changed = true →
      (updateRego eng opa rego force).err = none ∧
      (updateRego eng opa rego force).opa.Rego = cleanUpRegoDocument rego ∧
      (updateRego eng opa rego force).opa.policyUID = opa.policyUID ∧
      (updateRego eng opa rego force).opa.AllValues = opa.AllValues ∧
      (∃ q, specCompile eng opa.policyUID opa.AllValues (cleanUpRegoDocument rego) = .ok q ∧
        (updateRego eng opa rego force).opa.policy = some q) ∧
      Consistent eng (updateRego eng opa rego force).opa) := by
  by_cases hs : force = false ∧ hash (cleanUpRegoDocument rego) = hash opa.Rego
  · rw [updateRego_skip eng opa rego force hs]
    exact ⟨fun h => h, fun hc => absurd hc (by simp)⟩
  · rw [updateRego_compile eng opa rego force hs]
    have hspec := precompilePolicy_spec eng { opa with Rego := cleanUpRegoDocument rego }
    cases hc : specCompile eng opa.policyUID opa.AllValues (cleanUpRegoDocument rego) with
    | error e =>
      obtain ⟨he, hst⟩ := hspec.2 e hc
      simp only [he, hst]
      exact ⟨fun h => h, fun hch => absurd hch (by simp)⟩
    | ok q =>
      obtain ⟨he, hst⟩ := hspec.1 q hc
      simp only [he, hst]
      refine ⟨fun _ => ⟨q, hc, rfl⟩, fun _ => ?_⟩
      simp
      exact ⟨q, hc, rfl⟩

set_option maxRecDepth 100000 in
/-- Instance of C4: `stubCell` is consistent and installing `allow = false` keeps it so; the
first forced install of `allow = true` into `freshCell`, whose `policy` is nil, returns
`(true, nil)` and stores the query that the engine compiles from that body. -/
theorem updateRego_consistent_witness :
    Consistent stubEngine stubCell ∧
    Consistent stubEngine (updateRego stubEngine stubCell (bytes "allow = false") true).opa ∧
    ¬ Consistent stubEngine freshCell ∧
    (updateRego stubEngine freshCell (bytes "allow = true") true).changed = true ∧
    ((updateRego stubEngine freshCell (bytes "allow = true") true).err = none ∧
      (updateRego stubEngine freshCell (bytes "allow = true") true).opa.Rego
        = cleanUpRegoDocument (bytes "allow = true") ∧
      (updateRego stubEngine freshCell (bytes "allow = true") true).opa.policyUID
        = freshCell.policyUID ∧
      (updateRego stubEngine freshCell (bytes "allow = true") true).opa.AllValues
        = freshCell.AllValues ∧
      (∃ q, specCompile stubEngine freshCell.policyUID freshCell.AllValues
          (cleanUpRegoDocument (bytes "allow = true")) = .ok q ∧
        (updateRego stubEngine freshCell (bytes "allow = true") true).opa.policy = some q) ∧
      Consistent stubEngine (updateRego stubEngine freshCell (bytes "allow = true") true).opa) :=
  ⟨⟨_, rfl, rfl⟩,
    (updateRego_consistent stubEngine stubCell (bytes "allow = false") true).1 ⟨_, rfl, rfl⟩,
    fun ⟨_, _, h⟩ => absurd h (by simp [freshCell]),
    rfl,
    (updateRego_consistent stubEngine freshCell (bytes "allow = true") true).2 rfl⟩

set_option maxRecDepth 100000 in
/-- The query that the first install into `freshCell` stores, written out: the engine was
given the bindings of `allow`, `a` and `b` and the wrapped body. -/
theorem updateRego_freshCell_example :
    (updateRego stubEngine freshCell (bytes "allow = true") true).opa.policy = some (bytes
      ("allow = object.get(data.authorino.authz[\"00\"], \"allow\", null);" ++
       "a = object.get(data.authorino.authz[\"00\"], \"a\", null);" ++
       "b = object.get(data.authorino.authz[\"00\"], \"b\", null)"),
      bytes "package authorino.authz[\"00\"]\ndefault allow = false\nallow = true") := by
  decide

/-! ## The evaluator: `Call` -/

/-- C2. When the authorization JSON parses and the prepared query returns the result set `R`
without error, `Call` returns the error `invalid response from policy evaluation` if `R` is
empty; the unauthorized error if `R[0].Bindings["allow"]` is anything but the boolean true
(absent, not a boolean, or false); and otherwise `R[0].Bindings` with no error. `Call`
succeeds if and only if `R` is non-empty and `R[0].Bindings["allow"]` is the boolean true. -/
theorem Call_result {Module Query : Type} (eng : Engine Module Query)
    (unmarshal : GoString → Except GoError GoValue) (unauthorizedError : GoError)
    (opa : OPA Query) (authorizationJSON : GoString) (authJSON : GoValue) (policy : Query)
    (R : List Result)
    (hj : unmarshal authorizationJSON = .ok authJSON) (hp : opa.policy = some policy)
    (hr : eng.Eval policy authJSON = .ok R) :
    (R = [] → Call eng unmarshal unauthorizedError opa authorizationJSON
        = .ret (.nil, some msg_opaPolicyInvalidResponseError)) ∧
    (∀ r rest, R = r :: rest → r.Bindings allowQuery ≠ some (.bool true) →
      Call eng unmarshal unauthorizedError opa authorizationJSON
        = .ret (.nil, some unauthorizedError)) ∧
    (∀ r rest, R = r :: rest → r.Bindings allowQuery = some (.bool true) →
      Call eng unmarshal unauthorizedError opa authorizationJSON
        = .ret (.bindings r.Bindings, none)) ∧
    ((∃ v, Call eng unmarshal unauthorizedError opa authorizationJSON = .ret (v, none)) ↔
      ∃ r rest, R = r :: rest ∧ r.Bindings allowQuery = some (.bool true)) := by
  have hnil : R = [] → Call eng unmarshal unauthorizedError opa authorizationJSON
      = .ret (.nil, some msg_opaPolicyInvalidResponseError) := by
    intro hR
    subst hR
    simp [Call, hj, hp, hr]
  have hdeny : ∀ r rest, R = r :: rest → r.Bindings allowQuery ≠ some (.bool true) →
      Call eng unmarshal unauthorizedError opa authorizationJSON
        = .ret (.nil, some unauthorizedError) := by
    intro r rest hR hne
    subst hR
    simp only [Call, hj, hp, hr]
    cases hb : r.Bindings allowQuery with
    | none => simp [assertBool]
    | some v =>
      cases v with
      | bool b =>
        cases b with
        | true => exact absurd hb hne
        | false => simp [assertBool]
      | nil => simp [assertBool]
      | number n => simp [assertBool]
      | string s => simp [assertBool]
      | array xs => simp [assertBool]
      | object kvs => simp [assertBool]
  have hallow : ∀ r rest, R = r :: rest → r.Bindings allowQuery = some (.bool true) →
      Call eng unmarshal unauthorizedError opa authorizationJSON
        = .ret (.bindings r.Bindings, none) := by
    intro r rest hR hb
    subst hR
    simp [Call, hj, hp, hr, hb, assertBool]
  refine ⟨hnil, hdeny, hallow, ?_, ?_⟩
  · rintro ⟨v, hv⟩
    cases R with
    | nil =>
      rw [hnil rfl] at hv
      simp at hv
    | cons r rest =>
      by_cases hb : r.Bindings allowQuery = some (.bool true)
      · exact ⟨r, rest, rfl, hb⟩
      · rw [hdeny r rest rfl hb] at hv
        simp at hv
  · rintro ⟨r, rest, hR, hb⟩
    exact ⟨_, hallow r rest hR hb⟩

/-- Instance of C2: `stubEngine` allows, so `Call` on `stubCell` returns the bindings. -/
theorem Call_result_witness :
    (Call stubEngine (fun _ => .ok .nil) (bytes "Unauthorized") stubCell (bytes "null")
        = .ret (.bindings (fun k => if k = allowQuery then some (.bool true) else none), none)) ∧
    ((∃ v, Call stubEngine (fun _ => .ok .nil) (bytes "Unauthorized") stubCell (bytes "null")
        = .ret (v, none)) ↔
      ∃ r rest, [(⟨fun k => if k = allowQuery then some (.bool true) else none⟩ : Result)]
        = r :: rest ∧ r.Bindings allowQuery = some (.bool true)) :=
  ⟨(Call_result stubEngine (fun _ => .ok .nil) (bytes "Unauthorized") stubCell (bytes "null")
      .nil (bytes "allow = object.get(data.authorino.authz[\"00\"], \"allow\", null)",
        bytes "package authorino.authz[\"00\"]\ndefault allow = false\nallow = true")
      [⟨fun k => if k = allowQuery then some (.bool true) else none⟩] rfl rfl rfl).2.2.1
      _ [] rfl (by simp),
   (Call_result stubEngine (fun _ => .ok .nil) (bytes "Unauthorized") stubCell (bytes "null")
      .nil (bytes "allow = object.get(data.authorino.authz[\"00\"], \"allow\", null)",
        bytes "package authorino.authz[\"00\"]\ndefault allow = false\nallow = true")
      [⟨fun k => if k = allowQuery then some (.bool true) else none⟩] rfl rfl rfl).2.2.2⟩

/-! ## The query string of `precompilePolicy` -/

set_option maxRecDepth 100000 in
/-- The query that `stubCellAllValues` hands to the engine, written out. -/
theorem precompilePolicy_query_example :
    (precompilePolicy stubEngine stubCellAllValues).events.getLast? = some (.prepareForEval (bytes
      ("allow = object.get(data.authorino.authz[\"00\"], \"allow\", null);" ++
       "a = object.get(data.authorino.authz[\"00\"], \"a\", null);" ++
       "b = object.get(data.authorino.authz[\"00\"], \"b\", null)"))) := by
  decide

/-! ## The refresh tick and the registry fetcher -/

theorem precompilePolicy_events_compiler {Module Query : Type} (eng : Engine Module Query)
    (o : OPA Query) : ∀ e ∈ (precompilePolicy eng o).events, isCompilerEvent e = true := by
  unfold precompilePolicy
  cases hp : eng.ParseModule (o.policyUID ++ bytes ".rego")
      (policyContent (synthPolicyName o.policyUID) o.Rego) with
  | error err => simp [hp, isCompilerEvent]
  | ok module =>
    simp only [hp]
    split <;> simp [isCompilerEvent]

theorem isOutcomeLog_of_compiler (e : Event) (h : isCompilerEvent e = true) :
    isOutcomeLog e = false := by
  cases e with
  | parseModule f c => simp [isOutcomeLog]
  | prepareForEval q => simp [isOutcomeLog]
  | log l m => simp [isCompilerEvent] at h

theorem isOutcomeLog_precompileError :
    isOutcomeLog (.log .error msg_OpaPolicyPrecompileError) = false := by decide

/-- No event of `updateRego` is an outcome message of the tick. -/
theorem updateRego_no_outcome_log {Module Query : Type} (eng : Engine Module Query)
    (opa : OPA Query) (rego : GoString) (force : Bool) :
    ∀ e ∈ (updateRego eng opa rego force).events, isOutcomeLog e = false := by
  by_cases hs : force = false ∧ hash (cleanUpRegoDocument rego) = hash opa.Rego
  · rw [updateRego_skip eng opa rego force hs]
    simp
  · rw [updateRego_compile eng opa rego force hs]
    have hc := precompilePolicy_events_compiler eng { opa with Rego := cleanUpRegoDocument rego }
    cases he : (precompilePolicy eng { opa with Rego := cleanUpRegoDocument rego }).err with
    | none =>
      simp only [he]
      exact fun e hmem => isOutcomeLog_of_compiler e (hc e hmem)
    | some err =>
      simp only [he]
      intro e hmem
      rcases List.mem_append.1 hmem with h | h
      · exact isOutcomeLog_of_compiler e (hc e h)
      · rw [List.mem_singleton.1 h]
        exact isOutcomeLog_precompileError

theorem isOutcomeLog_outcomeLog {Query : Type} (err : Option GoError) (r : UpdateResult Query) :
    isOutcomeLog (outcomeLog err r) = true := by
  cases err with
  | some e =>
    show isOutcomeLog (.log .error msg_opaPolicyDownloadError) = true
    decide
  | none =>
    simp only [outcomeLog]
    split
    · decide
    · split <;> decide

/-- C9, as stated, fails: when the registry cannot be reached the fetch returns an error, and
the only line the tick logs is `failed to download policy from external registry` at error
level; that is not the message `failed to refresh policy from external registry`. -/
theorem refreshTick_fetch_failure_logs_download_error :
    downloadRegoDataFromUrl httpDown stubSource
      = .ret ([], some (bytes "failed to fetch Rego config: connection refused")) ∧
    refreshTick stubEngine httpDown stubSource stubCell
      = .ret (stubCell,
          [.log .error (bytes "failed to download policy from external registry")]) ∧
    Event.log .error (bytes "failed to download policy from external registry")
      ≠ .log .error (bytes "failed to refresh policy from external registry") :=
  ⟨rfl, rfl, by decide⟩

/-- C9, amended. A tick whose fetch returns logs exactly one outcome message, as its last
line: when the fetch returns an error, `failed to download policy from external registry` at
error level; when the fetch returns a body and the install reports it changed, `policy updated
from external registry` at info level; when the install returns an error, `failed to refresh
policy from external registry` at error level; when the install skips the body, `external
policy unchanged` at debug level. -/
theorem refreshTick_outcome {Module Query Request : Type} (eng : Engine Module Query)
    (http : Http Request) (ext : OPAExternalSource) (opa : OPA Query) (body : GoString)
    (err : Option GoError) (h : downloadRegoDataFromUrl http ext = .ret (body, err)) :
    ∃ (opa1 : OPA Query) (pre : List Event),
      refreshTick eng http ext opa
        = .ret (opa1, pre ++ [outcomeLog err (updateRego eng opa body false)]) ∧
      (∀ e ∈ pre, isOutcomeLog e = false) ∧
      isOutcomeLog (outcomeLog err (updateRego eng opa body false)) = true ∧
      (err = none → opa1 = (updateRego eng opa body false).opa ∧
        pre = (updateRego eng opa body false).events) ∧
      (err ≠ none → opa1 = opa ∧ pre = []) := by
  cases err with
  | some e =>
    refine ⟨opa, [], ?_, by simp, isOutcomeLog_outcomeLog _ _, by simp, by simp⟩
    simp [refreshTick, h, outcomeLog]
  | none =>
    refine ⟨(updateRego eng opa body false).opa, (updateRego eng opa body false).events, ?_,
      updateRego_no_outcome_log eng opa body false, isOutcomeLog_outcomeLog _ _, by simp, by simp⟩
    simp only [refreshTick, h, outcomeLog]
    cases hc : (updateRego eng opa body false).changed with
    | true => simp
    | false =>
      cases he : (updateRego eng opa body false).err with
      | none => simp
      | some e => simp

/-- Instance of C9: the registry serves `allow = false` as plain text; the tick installs it. -/
theorem refreshTick_outcome_witness :
    ∃ (opa1 : OPA (GoString × GoString)) (pre : List Event),
      refreshTick stubEngine httpPlain stubSource stubCell
        = .ret (opa1, pre ++ [outcomeLog none
            (updateRego stubEngine stubCell (bytes "allow = false") false)]) ∧
      (∀ e ∈ pre, isOutcomeLog e = false) ∧
      isOutcomeLog (outcomeLog none
        (updateRego stubEngine stubCell (bytes "allow = false") false)) = true ∧
      ((none : Option GoError) = none → opa1 = (updateRego stubEngine stubCell (bytes "allow = false") false).opa ∧
        pre = (updateRego stubEngine stubCell (bytes "allow = false") false).events) ∧
      ((none : Option GoError) ≠ none → opa1 = stubCell ∧ pre = []) :=
  refreshTick_outcome stubEngine httpPlain stubSource stubCell (bytes "allow = false") none rfl

set_option maxRecDepth 1000000 in
/-- The outcome message when `stubCell` installs the body `allow = false`. -/
theorem refreshTick_outcome_example :
    outcomeLog none (updateRego stubEngine stubCell (bytes "allow = false") false)
      = .log .info (bytes "policy updated from external registry") := by
  decide

/-- C10: on a `200 OK` response without a `Content-Type` header the fetcher panics at
`resp.Header["Content-Type"][0]`; it does not return the body. -/
theorem downloadRegoDataFromUrl_missing_content_type :
    downloadRegoDataFromUrl httpNoContentType stubSource
      = .panic (bytes "index out of range [0] with length 0") :=
  rfl

/-- The parts of the decoding rule that hold: with a `Content-Type` header present on a
`200` response, `application/json` returns the `raw` field that the JSON decoder yields and
fails when the decoder fails; any other value returns the body verbatim. -/
theorem downloadRegoDataFromUrl_content_type {Request : Type} (http : Http Request)
    (ext : OPAExternalSource) (req : Request) (resp : Response) (body contentType : GoString)
    (more : List GoString)
    (hreq : http.BuildRequestWithCredentials ext.Endpoint ext.SharedSecret = .ok req)
    (hdo : http.Do req = .ok resp) (hbody : resp.Body = .ok body)
    (hstatus : resp.StatusCode = 200)
    (hct : resp.Header (bytes "Content-Type") = contentType :: more) :
    (contentType ≠ bytes "application/json" →
      downloadRegoDataFromUrl http ext = .ret (body, none)) ∧
    (∀ X, contentType = bytes "application/json" → http.Unmarshal body = .ok ⟨X⟩ →
      downloadRegoDataFromUrl http ext = .ret (X, none)) ∧
    (∀ e, contentType = bytes "application/json" → http.Unmarshal body = .error e →
      downloadRegoDataFromUrl http ext
        = .ret ([], some (bytes "unable to unmarshal json response: " ++ e))) := by
  refine ⟨fun hne => ?_, fun X hj hu => ?_, fun e hj hu => ?_⟩
  · simp [downloadRegoDataFromUrl, hreq, hdo, hbody, hstatus, hct, hne]
  · simp [downloadRegoDataFromUrl, hreq, hdo, hbody, hstatus, hct, hj, hu]
  · simp [downloadRegoDataFromUrl, hreq, hdo, hbody, hstatus, hct, hj, hu]

/-! ## The normalizer: `cleanUpRegoDocument` -/

theorem bytes_package : bytes "package" = [112, 97, 99, 107, 97, 103, 101] := by decide

theorem dotStarTerm_isSome_iff (r : GoString) :
    (dotStarTerm r).isSome = true ↔ ∃ c ∈ r, isTerm c = true := by
  induction r with
  | nil => simp [dotStarTerm]
  | cons b t ih =>
    constructor
    · intro h
      unfold dotStarTerm at h
      by_cases hb : isTerm b = true
      · exact ⟨b, List.mem_cons_self _ _, hb⟩
      · have hbf : isTerm b = false := by simpa using hb
        cases ht : dotStarTerm t with
        | none => simp [ht, hbf] at h
        | some n =>
          obtain ⟨c, hc, hct⟩ := ih.1 (by simp [ht])
          exact ⟨c, List.mem_cons_of_mem _ hc, hct⟩
    · rintro ⟨c, hc, hct⟩
      unfold dotStarTerm
      by_cases hb : isTerm b = true
      · split
        · rfl
        · simp [hb]
      · have hbf : isTerm b = false := by simpa using hb
        have hne : b ≠ 10 := by
          intro h10
          rw [h10] at hbf
          exact absurd hbf (by decide)
        have hct2 : c ∈ t := by
          rcases List.mem_cons.1 hc with h | h
          · rw [h] at hct
            rw [hct] at hbf
            exact absurd hbf (by decide)
          · exact h
        have hsome := ih.2 ⟨c, hct2, hct⟩
        cases ht : dotStarTerm t with
        | none => simp [ht] at hsome
        | some n => simp [hne]

theorem literal_eq_some (p : GoString) : ∀ (s r : GoString), literal p s = some r → s = p ++ r := by
  induction p with
  | nil =>
    intro s r h
    simp [literal] at h
    simp [h]
  | cons c cs ih =>
    intro s r h
    cases s with
    | nil => simp [literal] at h
    | cons b t =>
      unfold literal at h
      by_cases hbc : b = c
      · simp only [hbc, if_true] at h
        rw [hbc, ih t r h]
        rfl
      · simp [hbc] at h

theorem literal_append (p r : GoString) : literal p (p ++ r) = some r := by
  induction p with
  | nil => simp [literal]
  | cons c cs ih => simp [literal, ih]

theorem pkgTail_isSome_iff (s : GoString) :
    (pkgTail s).isSome = true ↔ ∃ r, s = bytes "package" ++ r ∧ ∃ c ∈ r, isTerm c = true := by
  constructor
  · intro h
    unfold pkgTail at h
    cases hl : literal (bytes "package") s with
    | none => simp [hl] at h
    | some r =>
      simp only [hl] at h
      refine ⟨r, literal_eq_some _ _ _ hl, (dotStarTerm_isSome_iff r).1 ?_⟩
      cases hd : dotStarTerm r with
      | none => simp [hd] at h
      | some n => rfl
  · rintro ⟨r, hs, hc⟩
    have hd := (dotStarTerm_isSome_iff r).2 hc
    unfold pkgTail
    rw [hs, literal_append]
    cases hd2 : dotStarTerm r with
    | none => simp [hd2] at hd
    | some n => simp [hd2]

theorem matchAt_isSome_imp (s : GoString) :
    (matchAt s).isSome = true → PackageThenTerminator s := by
  induction s with
  | nil =>
    intro h
    unfold matchAt at h
    obtain ⟨r, hs, c, hc, hct⟩ := (pkgTail_isSome_iff []).1 h
    rw [bytes_package] at hs
    simp at hs
  | cons b t ih =>
    intro h
    unfold matchAt at h
    cases ht : (if isSpace b then matchAt t else none) with
    | some n =>
      have hm : (matchAt t).isSome = true := by
        by_cases hsp : isSpace b = true
        · simp only [hsp, if_true] at ht
          simp [ht]
        · simp [hsp] at ht
      obtain ⟨u, v, c, w, hs, hct⟩ := ih hm
      exact ⟨b :: u, v, c, w, by simp [hs], hct⟩
    | none =>
      simp only [ht] at h
      obtain ⟨r, hs, c, hc, hct⟩ := (pkgTail_isSome_iff (b :: t)).1 h
      obtain ⟨v, w, hvw⟩ := List.append_of_mem hc
      exact ⟨[], v, c, w, by simp [hs, hvw], hct⟩

theorem matchAt_package (r : GoString) (h : ∃ c ∈ r, isTerm c = true) :
    (matchAt (bytes "package" ++ r)).isSome = true := by
  have hp := (pkgTail_isSome_iff (bytes "package" ++ r)).2 ⟨r, rfl, h⟩
  have hb : bytes "package" ++ r = 112 :: ([97, 99, 107, 97, 103, 101] ++ r) := by
    rw [bytes_package]
    rfl
  rw [hb] at hp ⊢
  unfold matchAt
  have hsp : isSpace 112 = false := by decide
  simp only [hsp]
  exact hp

theorem hasMatch_iff (s : GoString) : hasMatch s = true ↔ PackageThenTerminator s := by
  constructor
  · induction s with
    | nil => simp [hasMatch]
    | cons b t ih =>
      intro h
      unfold hasMatch at h
      rcases Bool.or_eq_true _ _ ▸ h with h1 | h1
      · exact matchAt_isSome_imp _ h1
      · obtain ⟨u, v, c, w, hs, hct⟩ := ih h1
        exact ⟨b :: u, v, c, w, by simp [hs], hct⟩
  · rintro ⟨u, v, c, w, hs, hct⟩
    subst hs
    induction u with
    | nil =>
      have hm := matchAt_package (v ++ c :: w) ⟨c, by simp, hct⟩
      have hb : bytes "package" ++ (v ++ c :: w)
          = 112 :: ([97, 99, 107, 97, 103, 101] ++ (v ++ c :: w)) := by
        rw [bytes_package]
        rfl
      have he : [] ++ bytes "package" ++ v ++ c :: w
          = 112 :: ([97, 99, 107, 97, 103, 101] ++ (v ++ c :: w)) := by
        rw [← hb]
        simp
      rw [he]
      rw [hb] at hm
      unfold hasMatch
      rw [Bool.or_eq_true]
      exact Or.inl hm
    | cons a u ih =>
      show hasMatch (a :: (u ++ bytes "package" ++ v ++ c :: w)) = true
      unfold hasMatch
      rw [Bool.or_eq_true]
      exact Or.inr ih

theorem replaceAux_sublist : ∀ (s : GoString) (k : Nat), (replaceAux k s).Sublist s := by
  intro s
  induction s with
  | nil =>
    intro k
    cases k <;> simp [replaceAux]
  | cons b t ih =>
    intro k
    cases k with
    | succ k =>
      unfold replaceAux
      exact (ih k).cons b
    | zero =>
      unfold replaceAux
      cases hm : matchAt (b :: t) with
      | some n => exact (ih (n - 1)).cons b
      | none => exact (ih 0).cons₂ b

theorem replaceAux_eq_self_iff (s : GoString) : replaceAux 0 s = s ↔ hasMatch s = false := by
  induction s with
  | nil => simp [replaceAux, hasMatch]
  | cons b t ih =>
    unfold replaceAux hasMatch
    cases hm : matchAt (b :: t) with
    | some n =>
      simp only [Option.isSome_some, Bool.true_or]
      constructor
      · intro h
        have hlen := (replaceAux_sublist t (n - 1)).length_le
        rw [h] at hlen
        simp at hlen
      · intro h
        exact absurd h (by simp)
    | none =>
      simp only [Option.isSome_none, Bool.false_or]
      rw [← ih]
      simp

theorem cleanUp_eq_self_iff (s : GoString) :
    cleanUpRegoDocument s = s ↔ ¬ PackageThenTerminator s := by
  unfold cleanUpRegoDocument
  rw [replaceAux_eq_self_iff, ← hasMatch_iff]
  simp

theorem dotStarTerm_pos (r : GoString) : ∀ n, dotStarTerm r = some n → 0 < n := by
  induction r with
  | nil => simp [dotStarTerm]
  | cons b t ih =>
    intro n h
    unfold dotStarTerm at h
    split at h
    · simp at h
      omega
    · by_cases hb : isTerm b = true
      · simp [hb, termRun] at h
        omega
      · simp [hb] at h

theorem pkgTail_pos (s : GoString) (n : Nat) (h : pkgTail s = some n) : 0 < n := by
  unfold pkgTail at h
  split at h
  · simp at h
    obtain ⟨a, _, ha⟩ := h
    omega
  · simp at h

theorem matchAt_pos (s : GoString) : ∀ n, matchAt s = some n → 0 < n := by
  induction s with
  | nil =>
    intro n h
    unfold matchAt at h
    exact pkgTail_pos _ _ h
  | cons b t ih =>
    intro n h
    unfold matchAt at h
    split at h
    · simp at h
      omega
    · exact pkgTail_pos _ _ h

theorem replaceAux_drop : ∀ (t : GoString) (k : Nat), replaceAux k t = replaceAux 0 (t.drop k) := by
  intro t
  induction t with
  | nil =>
    intro k
    cases k <;> simp [replaceAux]
  | cons a t ih =>
    intro k
    cases k with
    | zero => rfl
    | succ k =>
      rw [List.drop_succ_cons, ← ih k]
      rfl

theorem cleanUp_of_match (s : GoString) (n : Nat) (h : matchAt s = some n) :
    cleanUpRegoDocument s = cleanUpRegoDocument (s.drop n) := by
  have hn := matchAt_pos s n h
  cases s with
  | nil =>
    simp [cleanUpRegoDocument, replaceAux]
  | cons b t =>
    obtain ⟨m, rfl⟩ : ∃ m, n = m + 1 := ⟨n - 1, by omega⟩
    unfold cleanUpRegoDocument
    rw [List.drop_succ_cons, ← replaceAux_drop t m]
    conv_lhs => unfold replaceAux
    simp [h]

theorem cleanUp_of_no_match (b : UInt8) (t : GoString) (h : matchAt (b :: t) = none) :
    cleanUpRegoDocument (b :: t) = b :: cleanUpRegoDocument t := by
  unfold cleanUpRegoDocument
  conv_lhs => unfold replaceAux
  simp [h]

theorem termRun_take : ∀ (s : GoString), ∀ b ∈ s.take (termRun s), isTerm b = true := by
  intro s
  induction s with
  | nil => simp [termRun]
  | cons a t ih =>
    intro b hb
    unfold termRun at hb
    by_cases ha : isTerm a = true
    · simp only [ha, if_true, List.take_succ_cons, List.mem_cons] at hb
      rcases hb with hb | hb
      · rw [hb]
        exact ha
      · exact ih b hb
    · simp [ha] at hb

theorem dotStarTerm_take (r : GoString) : ∀ n, dotStarTerm r = some n →
    ∃ body terms, r.take n = body ++ terms ∧ (10 : UInt8) ∉ body ∧ terms ≠ [] ∧
      ∀ b ∈ terms, isTerm b = true := by
  induction r with
  | nil => simp [dotStarTerm]
  | cons a t ih =>
    intro n h
    unfold dotStarTerm at h
    by_cases ha : a ≠ 10
    · rw [if_pos ha] at h
      cases ht : dotStarTerm t with
      | some m =>
        simp only [ht, Option.some.injEq] at h
        obtain ⟨body, terms, hbt, hb, hne, hall⟩ := ih m ht
        refine ⟨a :: body, terms, ?_, ?_, hne, hall⟩
        · rw [← h, List.take_succ_cons, hbt]
          rfl
        · intro hm
          rcases List.mem_cons.1 hm with h1 | h1
          · exact ha h1.symm
          · exact hb h1
      | none =>
        simp only [ht] at h
        by_cases hta : isTerm a = true
        · simp only [hta, if_true, Option.some.injEq] at h
          refine ⟨[], (a :: t).take n, by simp, by simp, ?_, ?_⟩
          · rw [← h]
            simp [termRun, hta]
          · rw [← h]
            exact termRun_take (a :: t)
        · simp [hta] at h
    · have ha10 : a = 10 := by simpa using ha
      have hta : isTerm a = true := by rw [ha10]; decide
      rw [if_neg ha] at h
      simp only [hta, if_true, Option.some.injEq] at h
      refine ⟨[], (a :: t).take n, by simp, by simp, ?_, ?_⟩
      · rw [← h]
        simp [termRun, hta]
      · rw [← h]
        exact termRun_take (a :: t)

theorem pkgTail_take (s : GoString) (n : Nat) (h : pkgTail s = some n) :
    ∃ body terms, s.take n = bytes "package" ++ body ++ terms ∧ (10 : UInt8) ∉ body ∧
      terms ≠ [] ∧ ∀ b ∈ terms, isTerm b = true := by
  unfold pkgTail at h
  cases hl : literal (bytes "package") s with
  | none => simp [hl] at h
  | some r =>
    simp only [hl] at h
    cases hd : dotStarTerm r with
    | none => simp [hd] at h
    | some m =>
      simp only [hd, Option.map_some', Option.some.injEq] at h
      obtain ⟨body, terms, hbt, hb, hne, hall⟩ := dotStarTerm_take r m hd
      refine ⟨body, terms, ?_, hb, hne, hall⟩
      rw [literal_eq_some _ _ _ hl, ← h, bytes_package, List.append_assoc, ← hbt]
      rfl

theorem matchAt_take (s : GoString) : ∀ n, matchAt s = some n → InPattern (s.take n) := by
  induction s with
  | nil =>
    intro n h
    unfold matchAt at h
    obtain ⟨body, terms, hbt, hb, hne, hall⟩ := pkgTail_take [] n h
    exact ⟨[], body, terms, by simpa using hbt, by simp, hb, hne, hall⟩
  | cons a t ih =>
    intro n h
    unfold matchAt at h
    cases hm : (if isSpace a then matchAt t else none) with
    | some m =>
      simp only [hm, Option.some.injEq] at h
      have hsp : isSpace a = true := by
        by_cases hs : isSpace a = true
        · exact hs
        · simp [hs] at hm
      simp only [hsp, if_true] at hm
      obtain ⟨ws, body, terms, hbt, hws, hb, hne, hall⟩ := ih m hm
      refine ⟨a :: ws, body, terms, ?_, ?_, hb, hne, hall⟩
      · rw [← h, List.take_succ_cons, hbt]
        simp
      · intro b hbm
        rcases List.mem_cons.1 hbm with h1 | h1
        · rw [h1]
          exact hsp
        · exact hws b h1
    | none =>
      simp only [hm] at h
      obtain ⟨body, terms, hbt, hb, hne, hall⟩ := pkgTail_take (a :: t) n h
      exact ⟨[], body, terms, by simpa using hbt, by simp, hb, hne, hall⟩


/-- C5, as stated, fails: deleting the match `package x\n` from `pacpackage x\nkage y\n` joins
`pac` and `kage y\n` into a new package declaration, which a second pass deletes. -/
theorem cleanUpRegoDocument_not_idempotent :
    cleanUpRegoDocument (bytes "pacpackage x\nkage y\n") = bytes "package y\n" ∧
    cleanUpRegoDocument (cleanUpRegoDocument (bytes "pacpackage x\nkage y\n")) = [] ∧
    cleanUpRegoDocument (cleanUpRegoDocument (bytes "pacpackage x\nkage y\n"))
      ≠ cleanUpRegoDocument (bytes "pacpackage x\nkage y\n") := by
  decide

/-- C5, amended. A second pass of `cleanUpRegoDocument` leaves the output of the first pass
unchanged if and only if that output does not contain the word `package` followed, anywhere
later, by `;` or a newline. -/
theorem cleanUpRegoDocument_idempotent_iff (x : GoString) :
    cleanUpRegoDocument (cleanUpRegoDocument x) = cleanUpRegoDocument x
      ↔ ¬ PackageThenTerminator (cleanUpRegoDocument x) :=
  cleanUp_eq_self_iff (cleanUpRegoDocument x)

/-- C6, as stated, fails: in `allow = true # not a package\nx = 1\n` the word `package` occurs
only inside a comment, and the text from the space before it to the end of the line is
deleted; in `s = "package";\n` it occurs only inside a string. -/
theorem cleanUpRegoDocument_deletes_in_comment :
    cleanUpRegoDocument (bytes "allow = true # not a package\nx = 1\n")
      = bytes "allow = true # not ax = 1\n" ∧
    cleanUpRegoDocument (bytes "s = \"package\";\n") = bytes "s = \"" := by
  decide

/-- C6, amended. `cleanUpRegoDocument` only deletes text (its output is a subsequence of the
body), what it deletes are the leftmost non-overlapping matches of the pattern (where the
pattern matches, the match, a word of the pattern, is skipped; elsewhere the byte is kept,
and the search moves on by one byte), and the body is returned
unchanged if and only if it does not contain the word `package`, in whatever place, followed
anywhere later by `;` or a newline. -/
theorem cleanUpRegoDocument_deletes_matches (s : GoString) :
    (cleanUpRegoDocument s).Sublist s ∧
    (cleanUpRegoDocument s = s ↔ ¬ PackageThenTerminator s) ∧
    (∀ n, matchAt s = some n →
      InPattern (s.take n) ∧ cleanUpRegoDocument s = cleanUpRegoDocument (s.drop n)) ∧
    (∀ b t, s = b :: t → matchAt s = none →
      cleanUpRegoDocument s = b :: cleanUpRegoDocument t) :=
  ⟨replaceAux_sublist s 0, cleanUp_eq_self_iff s,
    fun n hn => ⟨matchAt_take s n hn, cleanUp_of_match s n hn⟩,
    fun b t hs hm => by subst hs; exact cleanUp_of_no_match b t hm⟩

/-! ## The fingerprint input: `generatePolicyUID` -/

theorem policyUIDHashSeparator_eq : policyUIDHashSeparator = [124] := by decide

theorem digitChar_props (d : Nat) (h : d < 10) :
    (digitChar d).toNat - 48 = d ∧ digitChar d ≠ 124 ∧ digitChar d ≠ 45 := by
  interval_cases d <;> decide

theorem formatNat_digits : ∀ (f n : Nat), ∀ b ∈ formatNat f n, ∃ d, d < 10 ∧ b = digitChar d := by
  intro f
  induction f with
  | zero => simp [formatNat]
  | succ f ih =>
    intro n b hb
    unfold formatNat at hb
    by_cases hn : n < 10
    · simp only [hn, if_true, List.mem_singleton] at hb
      exact ⟨n, hn, hb⟩
    · simp only [hn, if_false, List.mem_append, List.mem_singleton] at hb
      rcases hb with hb | hb
      · exact ih _ b hb
      · exact ⟨n % 10, Nat.mod_lt _ (by decide), hb⟩

theorem decodeNat_append (l : GoString) (b : UInt8) :
    decodeNat (l ++ [b]) = 10 * decodeNat l + (b.toNat - 48) := by
  simp [decodeNat, List.foldl_append]

theorem decodeNat_formatNat : ∀ (f n : Nat), n < f → decodeNat (formatNat f n) = n := by
  intro f
  induction f with
  | zero => intro n h; omega
  | succ f ih =>
    intro n h
    unfold formatNat
    by_cases hn : n < 10
    · simp only [hn, if_true]
      have := (digitChar_props n hn).1
      simp [decodeNat, this]
    · simp only [hn, if_false]
      rw [decodeNat_append, ih (n / 10) (by omega), (digitChar_props (n % 10) (by omega)).1]
      omega

theorem formatNat_no_byte (f n : Nat) : (124 : UInt8) ∉ formatNat f n ∧ (45 : UInt8) ∉ formatNat f n := by
  constructor
  · intro h
    obtain ⟨d, hd, hb⟩ := formatNat_digits f n _ h
    exact (digitChar_props d hd).2.1 hb.symm
  · intro h
    obtain ⟨d, hd, hb⟩ := formatNat_digits f n _ h
    exact (digitChar_props d hd).2.2 hb.symm

theorem Sprint_no_separator (nonce : Int) : (124 : UInt8) ∉ Sprint nonce := by
  unfold Sprint
  split
  · intro h
    rcases List.mem_cons.1 h with h | h
    · exact absurd h (by decide)
    · exact (formatNat_no_byte _ _).1 h
  · exact (formatNat_no_byte _ _).1

theorem Sprint_injective (a b : Int) (h : Sprint a = Sprint b) : a = b := by
  unfold Sprint at h
  by_cases ha : a < 0 <;> by_cases hb : b < 0
  · simp only [ha, hb, if_true, List.cons.injEq, true_and] at h
    have hd := congrArg decodeNat h
    rw [decodeNat_formatNat _ _ (Nat.lt_succ_self _),
      decodeNat_formatNat _ _ (Nat.lt_succ_self _)] at hd
    omega
  · simp only [ha, hb, if_true, if_false] at h
    have hm : (45 : UInt8) ∈ formatNat (b.natAbs + 1) b.natAbs := by
      rw [← h]
      exact List.mem_cons_self _ _
    exact absurd hm (formatNat_no_byte _ _).2
  · simp only [ha, hb, if_true, if_false] at h
    have hm : (45 : UInt8) ∈ formatNat (a.natAbs + 1) a.natAbs := by
      rw [h]
      exact List.mem_cons_self _ _
    exact absurd hm (formatNat_no_byte _ _).2
  · simp only [ha, hb, if_false] at h
    have hd := congrArg decodeNat h
    rw [decodeNat_formatNat _ _ (Nat.lt_succ_self _),
      decodeNat_formatNat _ _ (Nat.lt_succ_self _)] at hd
    omega

/-- Two texts cut at their first separator are equal piece by piece. -/
theorem append_separator_inj : ∀ (a a1 r r1 : GoString), (124 : UInt8) ∉ a → (124 : UInt8) ∉ a1 →
    a ++ 124 :: r = a1 ++ 124 :: r1 → a = a1 ∧ r = r1 := by
  intro a
  induction a with
  | nil =>
    intro a1 r r1 _ h1 h
    cases a1 with
    | nil => simpa using h
    | cons y t =>
      simp only [List.nil_append, List.cons_append, List.cons.injEq] at h
      exact absurd (h.1 ▸ List.mem_cons_self _ _) h1
  | cons x t ih =>
    intro a1 r r1 h0 h1 h
    cases a1 with
    | nil =>
      simp only [List.nil_append, List.cons_append, List.cons.injEq] at h
      exact absurd (h.1 ▸ List.mem_cons_self _ _) h0
    | cons y t1 =>
      simp only [List.cons_append, List.cons.injEq] at h
      obtain ⟨hxy, hr⟩ := ih t1 r r1 (fun hm => h0 (List.mem_cons_of_mem _ hm))
        (fun hm => h1 (List.mem_cons_of_mem _ hm)) h.2
      exact ⟨by rw [h.1, hxy], hr⟩

theorem policyUIDInput_eq (name body : GoString) (nonce : Int) :
    policyUIDInput name body nonce = Sprint nonce ++ 124 :: (name ++ 124 :: body) := by
  simp [policyUIDInput, policyUIDHashSeparator_eq]

/-- C7, as stated, fails: the name may contain the separator. The triples (`a|b`, `c`, 1) and
(`a`, `b|c`, 1) differ and give the same hashed string `1|a|b|c`, hence the same policy UID
without any collision of MD5. -/
theorem policyUIDInput_not_injective :
    (bytes "a|b", bytes "c", (1 : Int)) ≠ (bytes "a", bytes "b|c", (1 : Int)) ∧
    policyUIDInput (bytes "a|b") (bytes "c") 1 = bytes "1|a|b|c" ∧
    policyUIDInput (bytes "a") (bytes "b|c") 1 = bytes "1|a|b|c" ∧
    generatePolicyUID (bytes "a|b") (bytes "c") 1 = generatePolicyUID (bytes "a") (bytes "b|c") 1 :=
  ⟨by decide, by decide, by decide,
    congrArg hash ((by decide : policyUIDInput (bytes "a|b") (bytes "c") 1
      = policyUIDInput (bytes "a") (bytes "b|c") 1))⟩

/-- C7, amended. For two triples (name, body, nonce) that are not equal and whose names do not
contain the separator `|`, the strings that `generatePolicyUID` hashes are different. -/
theorem policyUIDInput_injective (name body : GoString) (nonce : Int) (name1 body1 : GoString)
    (nonce1 : Int) (hn : (124 : UInt8) ∉ name) (hn1 : (124 : UInt8) ∉ name1)
    (hne : (name, body, nonce) ≠ (name1, body1, nonce1)) :
    policyUIDInput name body nonce ≠ policyUIDInput name1 body1 nonce1 := by
  intro h
  rw [policyUIDInput_eq, policyUIDInput_eq] at h
  obtain ⟨hs, hr⟩ := append_separator_inj _ _ _ _ (Sprint_no_separator nonce)
    (Sprint_no_separator nonce1) h
  obtain ⟨hname, hbody⟩ := append_separator_inj _ _ _ _ hn hn1 hr
  exact hne (by rw [hname, hbody, Sprint_injective _ _ hs])

/-- Instance of C7: same name and nonce, different bodies. -/
theorem policyUIDInput_injective_witness :
    (124 : UInt8) ∉ bytes "demo" ∧
    (bytes "demo", bytes "allow = true", (7 : Int)) ≠ (bytes "demo", bytes "allow = false", (7 : Int)) ∧
    policyUIDInput (bytes "demo") (bytes "allow = true") 7
      ≠ policyUIDInput (bytes "demo") (bytes "allow = false") 7 :=
  ⟨by decide, by decide,
    policyUIDInput_injective (bytes "demo") (bytes "allow = true") 7 (bytes "demo")
      (bytes "allow = false") 7 (by decide) (by decide) (by decide)⟩

end Authorino
